import Mathlib

/-!
Verification of the hierarchical configuration resolver of the `cdk-libs`
repository (`@cdklib/config`).

The embedding covers:
- `deepMerge` from `packages/cdk-config/src/deep-merge.ts`;
- the `CdkConfig` class (`set`, `setDefault`, `addRuntime`, `get`,
  `getEnvironmentHierarchy`) from `packages/config/src/cdk-config.ts`;
- a model of the subset of the external `zod` library that the resolver
  uses (`z.object`, `z.string`, `z.number`, `z.boolean`, `z.array(z.string())`,
  `.optional()`, `.default(..)`, and `ZodObject.parse`), modelled from zod's
  documented behaviour: `undefined` (or an absent key) triggers `.default`
  and `.optional`, every other value is type-checked, unknown keys are
  stripped, and all issues are collected before the parse fails.

JavaScript runtime values are modelled by `JsValue`; objects are association
lists in insertion order, mirroring JS object key ordering.  Since the merge
recursion of `deepMerge` descends simultaneously through both arguments via
key lookups, it is defined through a fuel parameter bounded by the structural
size of the base value; `mergeVFuel_stable` proves the fuel irrelevant and
`mergeV_eq` recovers the exact recursion of the source, so every later proof
works from the source's recursive equations while all definitions stay
kernel-computable.
-/

/-- A JavaScript runtime value as used by the configuration resolver:
`null` and `undefined` are distinct nullish sentinels, arrays and plain
objects are separate constructors, and objects keep their keys in insertion
order. -/
inductive JsValue where
  | null
  | undef
  | bool (b : Bool)
  | num (n : Int)
  | str (s : String)
  | arr (elems : List JsValue)
  | obj (fields : List (String × JsValue))

/-- A JavaScript plain object: association list in key insertion order. -/
abbrev JsObj := List (String × JsValue)

mutual

/-- Structural size of a `JsValue`, used as the fuel bound of the merge
recursion. -/
def jsSize : JsValue → Nat
  | JsValue.obj fields => 1 + jsSizeObj fields
  | JsValue.arr xs => 1 + jsSizeArr xs
  | _ => 1

/-- Structural size of an object field list. -/
def jsSizeObj : List (String × JsValue) → Nat
  | [] => 0
  | (_, v) :: rest => 1 + jsSize v + jsSizeObj rest

/-- Structural size of an array element list. -/
def jsSizeArr : List JsValue → Nat
  | [] => 0
  | x :: rest => 1 + jsSize x + jsSizeArr rest

end

/-- `Object.prototype.hasOwnProperty` / indexing on a JS object: first
binding of the key, `none` when the key is absent. -/
def lookupKey : List (String × α) → String → Option α
  | [], _ => none
  | (k2, v) :: rest, k => if k2 == k then some v else lookupKey rest k

/-- Whether a key occurs in an object's key list. -/
def keysContains (l : JsObj) (k : String) : Bool :=
  l.any (fun p => p.1 == k)

/-- The entries of `override` whose key is not a key of `original`: the
tail of the `Set([...Object.keys(original), ...Object.keys(override)])`
iteration of `deepMerge` (deep-merge.ts line 19). -/
def filterNew (original override : JsObj) : JsObj :=
  override.filter (fun p => !(keysContains original p.1))

/-- Resolution of a single key of `original` against `override`
(deep-merge.ts lines 21-66), parametrised by the value-level merge `mv`:
if the key is absent from `override` the base value is kept, otherwise the
two values are combined by `mv`. -/
def mergeEntryWith (mv : JsValue → JsValue → JsValue) (k : String) (bv : JsValue) :
    JsObj → JsValue
  | [] => bv
  | (k2, ov) :: rest => if k2 == k then mv bv ov else mergeEntryWith mv k bv rest

/-- The part of the `deepMerge` iteration covering the keys of `original`,
in `original`'s key order. -/
def mergeIntoWith (mv : JsValue → JsValue → JsValue) : JsObj → JsObj → JsObj
  | [], _ => []
  | (k, bv) :: rest, v => (k, mergeEntryWith mv k bv v) :: mergeIntoWith mv rest v

/-- Value-level merge of `deepMerge` with an explicit fuel: a nullish
(`null`/`undefined`) override value wins (deep-merge.ts lines 26-30), two
plain non-null non-array objects are merged recursively (lines 49-61), and
in every other case the override value replaces the base value wholesale
(lines 62-65).  The fuel only bounds the recursion depth; `mergeVFuel_stable`
shows any fuel at least `jsSize` of the base value gives the same result. -/
def mergeVFuel : Nat → JsValue → JsValue → JsValue
  | 0, _, ov => ov
  | Nat.succ n, bv, ov =>
    match bv, ov with
    | JsValue.obj o, JsValue.obj v =>
        JsValue.obj (mergeIntoWith (mergeVFuel n) o v ++ filterNew o v)
    | _, _ => ov

/-- Value-level merge of `deepMerge`, with the fuel instantiated to the
structural size of the base value (always sufficient). -/
def mergeV (bv ov : JsValue) : JsValue := mergeVFuel (jsSize bv) bv ov

/-- `deepMerge(original, override)` of deep-merge.ts: a fresh object holding,
for each key of `original` in order, the base value or its merge with the
override value, followed by the override-only keys in `override`'s order. -/
def deepMerge (original override : JsObj) : JsObj :=
  mergeIntoWith mergeV original override ++ filterNew original override

/-- The nullish sentinels of JavaScript: `null` and `undefined`. -/
def isNullish : JsValue → Bool
  | JsValue.null => true
  | JsValue.undef => true
  | _ => false

/-- Whether a JS value is a plain object (not `null`, not an array): the
test of deep-merge.ts lines 50-56. -/
def isPlainObj : JsValue → Bool
  | JsValue.obj _ => true
  | _ => false

/-- Modelled from the spec: the per-key combination rule of section 4.1 in
the case where the key is present in both objects: recursive merge exactly
when both values are plain key-value mappings, wholesale replacement by the
override value in every other case (scalars, arrays, nullish, mismatched
types). -/
def mergeValueSpec : JsValue → JsValue → JsValue
  | JsValue.obj b2, JsValue.obj o2 => JsValue.obj (deepMerge b2 o2)
  | _, ov => ov

/-- Path lookup inside a `JsValue`: follow a chain of object keys. -/
def getPathV : JsValue → List String → Option JsValue
  | v, [] => some v
  | JsValue.obj fields, k :: rest =>
      match lookupKey fields k with
      | some v => getPathV v rest
      | none => none
  | _, _ :: _ => none

/-- Splitting of a character list at a separator, the character-level
behaviour of JavaScript `String.prototype.split('/')`: an empty input gives
one empty part, and every occurrence of the separator starts a new part. -/
def splitOnChar (sep : Char) : List Char → List (List Char)
  | [] => [[]]
  | c :: rest =>
      match splitOnChar sep rest with
      | [] => [[]]
      | w :: ws => if c == sep then [] :: w :: ws else (c :: w) :: ws

/-- `envId.split('/')` of cdk-config.ts line 295. -/
def splitPath (s : String) : List String :=
  (splitOnChar '/' s.data).map (fun cs => String.mk cs)

/-- Concatenation of the parts produced by splitting, re-inserting the
separator: the character-level inverse of `splitOnChar`. -/
def joinChars : List (List Char) → List Char
  | [] => []
  | [w] => w
  | w :: v :: ws => w ++ '/' :: joinChars (v :: ws)

/-- Joining of path parts with the `/` separator (the inverse of
`splitPath`). -/
def joinPath : List String → String
  | [] => ""
  | [p] => p
  | p :: q :: rest => p ++ "/" ++ joinPath (q :: rest)

/-- The prefix-building loop of `getEnvironmentHierarchy`
(cdk-config.ts lines 298-307): `currentPath` has consumed the parts so far,
each remaining part is appended after a `/`. -/
def buildSegmentsGo (currentPath : String) : List String → List String
  | [] => [currentPath]
  | p :: rest => currentPath :: buildSegmentsGo (currentPath ++ "/" ++ p) rest

/-- All cumulative prefixes of a part list, root-most first. -/
def buildSegments : List String → List String
  | [] => []
  | p :: rest => buildSegmentsGo p rest

/-- `CdkConfig.getEnvironmentHierarchy` (cdk-config.ts lines 290-314): for a
path containing `/`, the cumulative `/`-joined prefixes of its parts; for a
simple name, the singleton list. -/
def getEnvironmentHierarchy (envId : String) : List String :=
  if envId.data.contains '/' then buildSegments (splitPath envId)
  else [envId]

/-- Modelled from the spec: the nonempty prefixes of a part list, least to
most specific (spec section 4.2 describes the ancestor chain this way). -/
def nonemptyPrefixes : List String → List (List String)
  | [] => []
  | p :: rest => [p] :: (nonemptyPrefixes rest).map (fun pre => p :: pre)

/-- Modelled from the spec: the ancestor keys of a part list, namely each
nonempty prefix joined with `/`, least to most specific. -/
def prefixJoins (ps : List String) : List String :=
  (nonemptyPrefixes ps).map joinPath

/-- The subset of zod field schemas the resolver's tests use: base types,
arrays of strings, `.default(d)` and `.optional()`. -/
inductive ZodType where
  | string
  | number
  | boolean
  | stringArray
  | withDefault (inner : ZodType) (d : JsValue)
  | optional (inner : ZodType)

/-- A zod validation issue: the path of the offending field and a message
(`Required` for a missing required value, `invalid_type` otherwise). -/
structure ZodIssue where
  path : List String
  message : String
deriving DecidableEq

/-- Message of a zod issue for a required field receiving `undefined`. -/
def requiredMessage : String := "Required"

/-- Message of a zod issue for a value of the wrong type. -/
def invalidTypeMessage : String := "invalid_type"

/-- Whether a field input counts as `undefined` for zod: the key is absent
or explicitly bound to `undefined` (an explicit `null` is a value). -/
def isUndefined : Option JsValue → Bool
  | none => true
  | some JsValue.undef => true
  | _ => false

/-- Element check of `z.array(z.string())`: one issue per non-string
element, indexed by position. -/
def stringArrayIssues (path : List String) : Nat → List JsValue → List ZodIssue
  | _, [] => []
  | i, x :: rest =>
      (match x with
       | JsValue.str _ => []
       | _ => [⟨path ++ [toString i], invalidTypeMessage⟩]) ++
        stringArrayIssues path (i + 1) rest

/-- Parse of a single field value against its zod field schema, modelled
from zod's documented behaviour: `undefined` input triggers `.default` and
`.optional`, any other value is checked against the base type, and the
parsed value (`none` when an optional field stays absent) or the list of
issues is returned. -/
def parseValue : ZodType → List String → Option JsValue → Except (List ZodIssue) (Option JsValue)
  | ZodType.string, path, none => Except.error [⟨path, requiredMessage⟩]
  | ZodType.string, path, some v =>
      match v with
      | JsValue.undef => Except.error [⟨path, requiredMessage⟩]
      | JsValue.str s => Except.ok (some (JsValue.str s))
      | _ => Except.error [⟨path, invalidTypeMessage⟩]
  | ZodType.number, path, none => Except.error [⟨path, requiredMessage⟩]
  | ZodType.number, path, some v =>
      match v with
      | JsValue.undef => Except.error [⟨path, requiredMessage⟩]
      | JsValue.num n => Except.ok (some (JsValue.num n))
      | _ => Except.error [⟨path, invalidTypeMessage⟩]
  | ZodType.boolean, path, none => Except.error [⟨path, requiredMessage⟩]
  | ZodType.boolean, path, some v =>
      match v with
      | JsValue.undef => Except.error [⟨path, requiredMessage⟩]
      | JsValue.bool b => Except.ok (some (JsValue.bool b))
      | _ => Except.error [⟨path, invalidTypeMessage⟩]
  | ZodType.stringArray, path, none => Except.error [⟨path, requiredMessage⟩]
  | ZodType.stringArray, path, some v =>
      match v with
      | JsValue.undef => Except.error [⟨path, requiredMessage⟩]
      | JsValue.arr xs =>
          match stringArrayIssues path 0 xs with
          | [] => Except.ok (some (JsValue.arr xs))
          | is => Except.error is
      | _ => Except.error [⟨path, invalidTypeMessage⟩]
  | ZodType.withDefault inner d, path, input =>
      if isUndefined input then parseValue inner path (some d)
      else parseValue inner path input
  | ZodType.optional inner, path, input =>
      if isUndefined input then Except.ok none
      else parseValue inner path input

/-- Parse of all declared fields of a `z.object` schema against an input
object: collects the issues of every failing field (in schema field order)
and the parsed values of every succeeding field; unknown input keys are
stripped. -/
def parseFields : List (String × ZodType) → JsObj → List ZodIssue × JsObj
  | [], _ => ([], [])
  | (k, t) :: rest, input =>
      let r := parseFields rest input
      match parseValue t [k] (lookupKey input k) with
      | Except.ok none => r
      | Except.ok (some v) => (r.1, (k, v) :: r.2)
      | Except.error is => (is ++ r.1, r.2)

/-- `ZodObject.parse`: succeeds with the parsed object exactly when no field
produced an issue, otherwise fails with all collected issues. -/
def parseObj (fields : List (String × ZodType)) (input : JsObj) :
    Except (List ZodIssue) JsObj :=
  match parseFields fields input with
  | ([], out) => Except.ok out
  | (is, _) => Except.error is

/-- A zod schema as passed to the `CdkConfig` constructor: either a
`z.object` (carrying its field schemas) or some other, non-object zod
schema. -/
inductive ZodSchema where
  | object (fields : List (String × ZodType))
  | other (t : ZodType)

/-- The state of a `CdkConfig` instance (cdk-config.ts lines 124-129):
the object schema's fields, the merge function (`deepMerge` unless a custom
one is supplied), the default fragment, the per-path override fragments in
registration order, and the runtime configuration functions in registration
order. -/
structure CdkConfig where
  schema : List (String × ZodType)
  mergeFn : JsObj → JsObj → JsObj
  defaultValues : JsObj
  overrides : List (String × JsObj)
  runtimeConfigs : List (String → JsObj → JsObj)

/-- The state a fresh `CdkConfig` holds right after a successful
construction: empty defaults, no overrides, no runtime functions. -/
def mkConfig (fields : List (String × ZodType)) (mergeFn : JsObj → JsObj → JsObj) :
    CdkConfig :=
  ⟨fields, mergeFn, [], [], []⟩

/-- The `CdkConfig` constructor (cdk-config.ts lines 152-158): rejects any
schema that is not a `z.object` with the error `Schema must be a Zod
object`, otherwise produces the fresh instance. -/
def CdkConfig.create (schema : ZodSchema) (mergeFn : JsObj → JsObj → JsObj) :
    Except String CdkConfig :=
  match schema with
  | ZodSchema.object fields => Except.ok (mkConfig fields mergeFn)
  | ZodSchema.other _ => Except.error "Schema must be a Zod object"

/-- `CdkConfig.setDefault` (cdk-config.ts lines 176-179): replaces the
default fragment wholesale. -/
def CdkConfig.setDefault (c : CdkConfig) (values : JsObj) : CdkConfig :=
  { c with defaultValues := values }

/-- In-place update of the binding of a key in an association list,
mirroring a JavaScript property assignment on an existing key. -/
def updateKey : List (String × α) → String → α → List (String × α)
  | [], _, _ => []
  | (k2, v2) :: rest, k, v =>
      if k2 == k then (k2, v) :: rest else (k2, v2) :: updateKey rest k v

/-- `CdkConfig.set` (cdk-config.ts lines 200-209): deep-merges into an
already-registered fragment for the path key, otherwise registers the
fragment fresh.  Note the source calls `deepMerge` here directly, not the
configurable merge function. -/
def CdkConfig.set (c : CdkConfig) (envId : String) (values : JsObj) : CdkConfig :=
  match lookupKey c.overrides envId with
  | some existing =>
      { c with overrides := updateKey c.overrides envId (deepMerge existing values) }
  | none => { c with overrides := c.overrides ++ [(envId, values)] }

/-- `CdkConfig.addRuntime` (cdk-config.ts lines 231-234): appends to the
runtime function list. -/
def CdkConfig.addRuntime (c : CdkConfig) (fn : String → JsObj → JsObj) : CdkConfig :=
  { c with runtimeConfigs := c.runtimeConfigs ++ [fn] }

/-- `CdkConfig.get` (cdk-config.ts lines 254-278): starting from the default
fragment, fold the merge function over the override fragment registered at
each segment of the environment hierarchy (skipping unregistered segments),
then over the output of each runtime function (invoked with the path key and
the current accumulator), and validate the result against the schema. -/
def CdkConfig.get (c : CdkConfig) (envId : String) : Except (List ZodIssue) JsObj :=
  let segments := getEnvironmentHierarchy envId
  let mergedConfig := segments.foldl
    (fun acc segment =>
      match lookupKey c.overrides segment with
      | some ov => c.mergeFn acc ov
      | none => acc)
    c.defaultValues
  let finalConfig := c.runtimeConfigs.foldl
    (fun acc fn => c.mergeFn acc (fn envId acc)) mergedConfig
  parseObj c.schema finalConfig

/-- State-threaded reading of `CdkConfig.get`: the translation of the method
body with the receiver state passed through explicitly.  The body of `get`
contains no assignment to any field of `this` (cdk-config.ts lines 254-278,
only the local `mergedConfig` is rebound), so the outgoing state is the
incoming receiver unchanged. -/
def CdkConfig.getS (c : CdkConfig) (envId : String) :
    Except (List ZodIssue) JsObj × CdkConfig :=
  let segments := getEnvironmentHierarchy envId
  let mergedConfig := segments.foldl
    (fun acc segment =>
      match lookupKey c.overrides segment with
      | some ov => c.mergeFn acc ov
      | none => acc)
    c.defaultValues
  let finalConfig := c.runtimeConfigs.foldl
    (fun acc fn => c.mergeFn acc (fn envId acc)) mergedConfig
  (parseObj c.schema finalConfig, c)

/-- Modelled from the spec: the resolution algorithm exactly as section 4.3
words it.  The accumulator starts at the default fragment; the registered
override fragments of the ancestor chain (section 4.2: the nonempty
`/`-joined prefixes of the path parts, root-most first; unregistered
ancestors are skipped) are folded in by the merge function; each runtime
function is then invoked with the target path key and the current
accumulator and its output folded in; the result is validated against the
schema. -/
def resolveSpec (c : CdkConfig) (envId : String) : Except (List ZodIssue) JsObj :=
  let ancestors := prefixJoins (splitPath envId)
  let registered := ancestors.filterMap (lookupKey c.overrides)
  let afterOverrides := registered.foldl c.mergeFn c.defaultValues
  let afterRuntime := c.runtimeConfigs.foldl
    (fun acc fn => c.mergeFn acc (fn envId acc)) afterOverrides
  parseObj c.schema afterRuntime

/-- Every JS value has positive structural size. -/
theorem jsSize_pos (v : JsValue) : 1 ≤ jsSize v := by
  cases v <;> simp [jsSize]

/-- A field value of an object is structurally smaller than the field
list. -/
theorem jsSize_lt_of_mem {k : String} {v : JsValue} {o : JsObj}
    (h : (k, v) ∈ o) : jsSize v < jsSizeObj o := by
  induction o with
  | nil => cases h
  | cons p rest ih =>
      obtain ⟨k2, v2⟩ := p
      rcases List.mem_cons.mp h with h1 | h1
      · obtain ⟨rfl, rfl⟩ := Prod.mk.injEq .. ▸ h1
        simp only [jsSizeObj]
        omega
      · have := ih h1
        simp only [jsSizeObj]
        omega

/-- `mergeEntryWith` only applies the merge function to the given base
value, so pointwise-equal merge functions agree on it. -/
theorem mergeEntryWith_congr {mv1 mv2 : JsValue → JsValue → JsValue}
    {k : String} {bv : JsValue} (h : ∀ ov, mv1 bv ov = mv2 bv ov) :
    ∀ v : JsObj, mergeEntryWith mv1 k bv v = mergeEntryWith mv2 k bv v := by
  intro v
  induction v with
  | nil => rfl
  | cons p rest ih =>
      obtain ⟨k2, ov⟩ := p
      simp only [mergeEntryWith]
      by_cases hk : (k2 == k) = true
      · simp [hk, h ov]
      · simp [hk, ih]

/-- `mergeIntoWith` only applies the merge function to base values stored
in the base object. -/
theorem mergeIntoWith_congr {mv1 mv2 : JsValue → JsValue → JsValue}
    {o : JsObj} (h : ∀ k bv ov, (k, bv) ∈ o → mv1 bv ov = mv2 bv ov)
    (v : JsObj) : mergeIntoWith mv1 o v = mergeIntoWith mv2 o v := by
  induction o with
  | nil => rfl
  | cons p rest ih =>
      obtain ⟨k, bv⟩ := p
      simp only [mergeIntoWith]
      rw [mergeEntryWith_congr (fun ov => h k bv ov (by simp)) v,
        ih (fun k2 bv2 ov2 hm => h k2 bv2 ov2 (List.mem_cons_of_mem _ hm))]

/-- Any fuel at least the structural size of the base value gives the same
merge result: the fuel parameter of `mergeVFuel` is irrelevant beyond that
bound. -/
theorem mergeVFuel_stable :
    ∀ n m (bv ov : JsValue), jsSize bv ≤ n → jsSize bv ≤ m →
      mergeVFuel n bv ov = mergeVFuel m bv ov := by
  intro n
  induction n with
  | zero => intro m bv ov hn _; have := jsSize_pos bv; omega
  | succ n ih =>
      intro m bv ov hn hm
      cases m with
      | zero => have := jsSize_pos bv; omega
      | succ m =>
          cases bv with
          | obj o =>
              cases ov with
              | obj v =>
                  simp only [mergeVFuel]
                  have hsz : jsSize (JsValue.obj o) = 1 + jsSizeObj o := by
                    simp [jsSize]
                  have congr1 : mergeIntoWith (mergeVFuel n) o v =
                      mergeIntoWith (mergeVFuel m) o v := by
                    apply mergeIntoWith_congr
                    intro k bv2 ov2 hmem
                    have hlt := jsSize_lt_of_mem hmem
                    exact ih m bv2 ov2 (by omega) (by omega)
                  rw [congr1]
              | null => rfl
              | undef => rfl
              | bool b => rfl
              | num x => rfl
              | str s => rfl
              | arr xs => rfl
          | null => rfl
          | undef => rfl
          | bool b => rfl
          | num x => rfl
          | str s => rfl
          | arr xs => rfl

/-- The recursion of the source recovered from the fuel presentation: on
two plain objects, `mergeV` is the deep merge of their field lists. -/
theorem mergeV_obj_obj (o v : JsObj) :
    mergeV (JsValue.obj o) (JsValue.obj v) = JsValue.obj (deepMerge o v) := by
  have hsz : jsSize (JsValue.obj o) = Nat.succ (jsSizeObj o) := by
    simp [jsSize]; omega
  unfold mergeV
  rw [hsz]
  simp only [mergeVFuel]
  unfold deepMerge
  have congr1 : mergeIntoWith (mergeVFuel (jsSizeObj o)) o v =
      mergeIntoWith mergeV o v := by
    apply mergeIntoWith_congr
    intro k bv ov hmem
    have hlt := jsSize_lt_of_mem hmem
    exact mergeVFuel_stable _ _ bv ov (by omega) (le_refl _)
  rw [congr1]

/-- Unless both sides are plain objects, the override value replaces the
base value wholesale (deep-merge.ts lines 62-65; this also covers a nullish
override, lines 26-30). -/
theorem mergeV_replace {bv ov : JsValue}
    (h : isPlainObj bv = false ∨ isPlainObj ov = false) :
    mergeV bv ov = ov := by
  obtain ⟨n, hn⟩ : ∃ n, jsSize bv = n + 1 :=
    ⟨jsSize bv - 1, by have := jsSize_pos bv; omega⟩
  show mergeVFuel (jsSize bv) bv ov = ov
  rw [hn]
  cases bv with
  | obj o =>
      cases ov with
      | obj v => simp [isPlainObj] at h
      | null => rfl
      | undef => rfl
      | bool b => rfl
      | num x => rfl
      | str s => rfl
      | arr xs => rfl
  | null => cases ov <;> rfl
  | undef => cases ov <;> rfl
  | bool b => cases ov <;> rfl
  | num x => cases ov <;> rfl
  | str s => cases ov <;> rfl
  | arr xs => cases ov <;> rfl

/-- Key lookup distributes over list append, preferring the left list. -/
theorem lookupKey_append (l1 l2 : List (String × α)) (k : String) :
    lookupKey (l1 ++ l2) k =
      match lookupKey l1 k with
      | some v => some v
      | none => lookupKey l2 k := by
  induction l1 with
  | nil => rfl
  | cons p rest ih =>
      obtain ⟨k2, v⟩ := p
      simp only [List.cons_append, lookupKey]
      by_cases hk : (k2 == k) = true
      · simp [hk]
      · simp [hk, ih]

/-- The merged-base part of `deepMerge` binds exactly the keys of the base
object, each to the entry-level merge of its base value. -/
theorem lookupKey_mergeIntoWith (mv : JsValue → JsValue → JsValue)
    (b o : JsObj) (k : String) :
    lookupKey (mergeIntoWith mv b o) k =
      (lookupKey b k).map (fun bv => mergeEntryWith mv k bv o) := by
  induction b with
  | nil => rfl
  | cons p rest ih =>
      obtain ⟨k2, bv⟩ := p
      simp only [mergeIntoWith, lookupKey]
      by_cases hk : (k2 == k) = true
      · have : k2 = k := by simpa using hk
        subst this
        simp [hk]
      · simp [hk, ih]

/-- The entry-level merge is lookup followed by the value-level merge. -/
theorem mergeEntryWith_eq (mv : JsValue → JsValue → JsValue)
    (k : String) (bv : JsValue) (o : JsObj) :
    mergeEntryWith mv k bv o =
      match lookupKey o k with
      | some ov => mv bv ov
      | none => bv := by
  induction o with
  | nil => rfl
  | cons p rest ih =>
      obtain ⟨k2, ov⟩ := p
      simp only [mergeEntryWith, lookupKey]
      by_cases hk : (k2 == k) = true
      · simp [hk]
      · simp [hk, ih]

/-- `keysContains` agrees with key lookup. -/
theorem keysContains_eq_isSome (b : JsObj) (k : String) :
    keysContains b k = (lookupKey b k).isSome := by
  induction b with
  | nil => rfl
  | cons p rest ih =>
      obtain ⟨k2, v⟩ := p
      simp only [keysContains, List.any_cons, lookupKey]
      by_cases hk : (k2 == k) = true
      · simp [hk]
      · simpa [hk] using ih

/-- Lookup in the override-only part of `deepMerge`: a key of the base
object is never there; any other key keeps its override binding. -/
theorem lookupKey_filterNew (b o : JsObj) (k : String) :
    lookupKey (filterNew b o) k =
      if keysContains b k then none else lookupKey o k := by
  induction o with
  | nil => simp [filterNew, lookupKey]
  | cons p rest ih
  =>
      obtain ⟨k2, ov⟩ := p
      simp only [filterNew, List.filter_cons] at *
      by_cases hk : (k2 == k) = true
      · have hkk : k2 = k := by simpa using hk
        subst hkk
        by_cases hc : keysContains b k2 = true
        · simp [hc, lookupKey, hk, ih]
        · simp [hc, lookupKey, hk]
      · by_cases hc : keysContains b k2 = true
        · simp [hc, ih, lookupKey, hk]
        · simp [hc, lookupKey, hk, ih]

/-- The per-key contract of `deepMerge` (deep-merge.ts lines 21-66): a key
only in the base keeps its base value, a key only in the override gets the
override value, and a key in both gets the value-level merge. -/
theorem lookupKey_deepMerge (b o : JsObj) (k : String) :
    lookupKey (deepMerge b o) k =
      match lookupKey b k, lookupKey o k with
      | some bv, some ov => some (mergeV bv ov)
      | some bv, none => some bv
      | none, r => r := by
  unfold deepMerge
  rw [lookupKey_append, lookupKey_mergeIntoWith, lookupKey_filterNew,
    keysContains_eq_isSome]
  rcases hb : lookupKey b k with _ | bv <;> rcases ho : lookupKey o k with _ | ov <;>
    simp [mergeEntryWith_eq, ho]

/-- Splitting never produces the empty part list. -/
theorem splitOnChar_ne_nil (sep : Char) (cs : List Char) :
    splitOnChar sep cs ≠ [] := by
  cases cs with
  | nil => simp [splitOnChar]
  | cons c rest =>
      simp only [splitOnChar]
      rcases h : splitOnChar sep rest with _ | ⟨w, ws⟩
      · simp
      · by_cases hc : (c == sep) = true <;> simp [hc]

/-- Joining the parts of a split gives back the original characters. -/
theorem joinChars_splitOnChar (cs : List Char) :
    joinChars (splitOnChar '/' cs) = cs := by
  induction cs with
  | nil => rfl
  | cons c rest ih =>
      simp only [splitOnChar]
      rcases h : splitOnChar '/' rest with _ | ⟨w, ws⟩
      · exact absurd h (splitOnChar_ne_nil '/' rest)
      · rw [h] at ih
        by_cases hc : (c == '/') = true
        · have hceq : c = '/' := by simpa using hc
          subst hceq
          simp only [if_pos hc, joinChars]
          simpa using ih
        · simp only [if_neg hc]
          cases ws with
          | nil => simp only [joinChars] at ih ⊢; rw [ih]
          | cons v ws2 =>
              simp only [joinChars] at ih ⊢
              rw [List.cons_append, ih]

/-- Splitting a separator-free character list gives the single part. -/
theorem splitOnChar_no_sep (sep : Char) (cs : List Char)
    (h : cs.contains sep = false) : splitOnChar sep cs = [cs] := by
  induction cs with
  | nil => rfl
  | cons c rest ih =>
      simp only [List.contains_cons, Bool.or_eq_false_iff] at h
      have hcs : ¬((c == sep) = true) := by
        intro hc
        have hce : c = sep := by simpa using hc
        subst hce
        simp at h
      simp only [splitOnChar, ih h.2, if_neg hcs]

/-- String append is associative. -/
theorem stringAppendAssoc (a b c : String) : (a ++ b) ++ c = a ++ (b ++ c) := by
  cases a; cases b; cases c
  show String.mk _ = String.mk _
  simp [List.append_assoc]

/-- Splitting a path never gives the empty part list. -/
theorem splitPath_ne_nil (s : String) : splitPath s ≠ [] := by
  unfold splitPath
  intro h
  exact splitOnChar_ne_nil '/' s.data (List.map_eq_nil_iff.mp h)

/-- Joining the parts of a split path gives back the path key itself. -/
theorem joinPath_splitPath (s : String) : joinPath (splitPath s) = s := by
  have main : ∀ xss : List (List Char), xss ≠ [] →
      joinPath (xss.map String.mk) = String.mk (joinChars xss) := by
    intro xss
    induction xss with
    | nil => intro h; exact absurd rfl h
    | cons w ws ih =>
        intro _
        cases ws with
        | nil => rfl
        | cons v ws2 =>
            show String.mk w ++ "/" ++ joinPath ((v :: ws2).map String.mk) = _
            rw [ih (by simp)]
            show String.mk ((w ++ ['/']) ++ joinChars (v :: ws2)) = _
            rw [List.append_assoc]
            rfl
  unfold splitPath
  rw [main _ (splitOnChar_ne_nil '/' s.data), joinChars_splitOnChar]

/-- A part list always starts somewhere: `joinPath` after a cons. -/
theorem joinPath_cons (p : String) (ps : List String) (h : ps ≠ []) :
    joinPath (p :: ps) = p ++ "/" ++ joinPath ps := by
  cases ps with
  | nil => exact absurd rfl h
  | cons q rest => rfl

/-- Every nonempty prefix is nonempty. -/
theorem nonemptyPrefixes_ne_nil {ps : List String} {pre : List String}
    (h : pre ∈ nonemptyPrefixes ps) : pre ≠ [] := by
  induction ps generalizing pre with
  | nil => cases h
  | cons p rest ih =>
      simp only [nonemptyPrefixes, List.mem_cons, List.mem_map] at h
      rcases h with h | ⟨q, _, h⟩
      · subst h; simp
      · rw [← h]; simp

/-- Unfolding of the ancestor chain at a cons: the head part alone, then
every deeper ancestor with the head part and a separator prepended. -/
theorem prefixJoins_cons (p : String) (rest : List String) :
    prefixJoins (p :: rest) =
      p :: (prefixJoins rest).map (fun t => p ++ "/" ++ t) := by
  simp only [prefixJoins, nonemptyPrefixes, List.map_cons, List.map_map]
  congr 1
  apply List.map_congr_left
  intro pre hpre
  have hne := nonemptyPrefixes_ne_nil hpre
  simp [Function.comp, joinPath_cons p pre hne]

/-- The prefix-building loop produces the current path followed by all
deeper ancestors of the remaining parts, each extended from the current
path. -/
theorem buildSegmentsGo_spec (rest : List String) :
    ∀ cur : String, buildSegmentsGo cur rest =
      cur :: (prefixJoins rest).map (fun t => cur ++ "/" ++ t) := by
  induction rest with
  | nil => intro cur; rfl
  | cons p r ih =>
      intro cur
      simp only [buildSegmentsGo, ih, prefixJoins_cons, List.map_cons, List.map_map]
      congr 2
      apply List.map_congr_left
      intro t _
      simp [Function.comp, stringAppendAssoc]

/-- The loop of `getEnvironmentHierarchy` computes exactly the
ancestor-chain of the part list. -/
theorem buildSegments_eq_prefixJoins (ps : List String) :
    buildSegments ps = prefixJoins ps := by
  cases ps with
  | nil => rfl
  | cons p rest => rw [buildSegments, buildSegmentsGo_spec, prefixJoins_cons]

/-- `getEnvironmentHierarchy` returns the `/`-joined nonempty prefixes of
the path key's parts, in both the separator and the separator-free case. -/
theorem getEnvironmentHierarchy_eq (s : String) :
    getEnvironmentHierarchy s = prefixJoins (splitPath s) := by
  unfold getEnvironmentHierarchy
  by_cases h : s.data.contains '/' = true
  · rw [if_pos h, buildSegments_eq_prefixJoins]
  · rw [if_neg h]
    have hsplit : splitPath s = [s] := by
      unfold splitPath
      rw [splitOnChar_no_sep '/' s.data (by simpa using h)]
      rfl
    rw [hsplit]
    rfl

/-- The last entry of the ancestor chain is the full joined key. -/
theorem prefixJoins_getLast (ps : List String) (h : ps ≠ []) :
    (prefixJoins ps).getLast? = some (joinPath ps) := by
  induction ps with
  | nil => exact absurd rfl h
  | cons p rest ih =>
      cases rest with
      | nil => rfl
      | cons q r2 =>
          rw [prefixJoins_cons, List.getLast?_cons, List.getLast?_map,
            ih (by simp), joinPath_cons p (q :: r2) (by simp)]
          rfl

/-- Folding with a skip over unregistered keys equals folding the merge
function over the registered fragments only. -/
theorem foldl_skip_eq_filterMap (ov : List (String × JsObj))
    (f : JsObj → JsObj → JsObj) (segs : List String) :
    ∀ acc : JsObj,
      segs.foldl (fun acc seg =>
        match lookupKey ov seg with
        | some o => f acc o
        | none => acc) acc
      = (segs.filterMap (lookupKey ov)).foldl f acc := by
  induction segs with
  | nil => intro acc; rfl
  | cons s rest ih =>
      intro acc
      simp only [List.foldl_cons, List.filterMap_cons]
      rcases h : lookupKey ov s with _ | o <;> simp [h, ih]

/-- Merging an empty override object is the identity on the base object. -/
theorem deepMerge_nil_right (x : JsObj) : deepMerge x [] = x := by
  unfold deepMerge
  have h : mergeIntoWith mergeV x [] = x := by
    induction x with
    | nil => rfl
    | cons p rest ih =>
        obtain ⟨k, bv⟩ := p
        simp only [mergeIntoWith, mergeEntryWith, ih]
  simp [h, filterNew]

/-- Merging into an empty base object is the identity on the override
object. -/
theorem deepMerge_nil_left (x : JsObj) : deepMerge [] x = x := by
  unfold deepMerge
  show filterNew [] x = x
  unfold filterNew
  have h : ∀ p : String × JsValue, p ∈ x → (!keysContains [] p.1) = true := by
    intro p _
    rfl
  simp [List.filter_eq_self.mpr h]

/-- Updating a key that is bound to the given value is the identity. -/
theorem updateKey_self (l : List (String × α)) (k : String) (v : α)
    (h : lookupKey l k = some v) : updateKey l k v = l := by
  induction l with
  | nil => simp [lookupKey] at h
  | cons p rest ih =>
      obtain ⟨k2, v2⟩ := p
      simp only [lookupKey] at h
      simp only [updateKey]
      by_cases hk : (k2 == k) = true
      · rw [if_pos hk] at h
        injection h with h
        rw [if_pos hk, h]
      · rw [if_neg hk] at h
        rw [if_neg hk, ih h]

/-- Updating a key changes exactly that key's first binding. -/
theorem lookupKey_updateKey_self (l : List (String × α)) (k : String) (v : α)
    (h : (lookupKey l k).isSome) : lookupKey (updateKey l k v) k = some v := by
  induction l with
  | nil => simp [lookupKey] at h
  | cons p rest ih =>
      obtain ⟨k2, v2⟩ := p
      simp only [lookupKey] at h
      simp only [updateKey]
      by_cases hk : (k2 == k) = true
      · simp [lookupKey, hk]
      · rw [if_neg hk] at h
        simp [lookupKey, hk, ih h]

/-- The fragment held for a key after `set`: the deep merge into the
existing fragment when one is registered, the supplied fragment as given
otherwise. -/
theorem lookupKey_set_self (c : CdkConfig) (k : String) (v : JsObj) :
    lookupKey (c.set k v).overrides k =
      some (match lookupKey c.overrides k with
            | some existing => deepMerge existing v
            | none => v) := by
  unfold CdkConfig.set
  rcases h : lookupKey c.overrides k with _ | existing
  · simp only []
    rw [lookupKey_append, h]
    simp [lookupKey]
  · simp only []
    exact lookupKey_updateKey_self _ _ _ (by simp [h])

/-- A key absent from both objects is absent from their deep merge. -/
theorem lookupKey_deepMerge_none {b o : JsObj} {k : String}
    (hb : lookupKey b k = none) (ho : lookupKey o k = none) :
    lookupKey (deepMerge b o) k = none := by
  rw [lookupKey_deepMerge, hb, ho]

/-- A required field missing from the input object yields a `Required`
issue among the collected issues of the field parse. -/
theorem parseFields_missing_required (fields : List (String × ZodType))
    (input : JsObj) (fname : String)
    (hmem : (fname, ZodType.string) ∈ fields)
    (habsent : lookupKey input fname = none) :
    ZodIssue.mk [fname] requiredMessage ∈ (parseFields fields input).1 := by
  induction fields with
  | nil => cases hmem
  | cons p rest ih =>
      obtain ⟨k, t⟩ := p
      simp only [parseFields]
      rcases List.mem_cons.mp hmem with h1 | h1
      · obtain ⟨rfl, rfl⟩ := Prod.mk.injEq .. ▸ h1
        rw [habsent]
        simp [parseValue]
      · rcases hp : parseValue t [k] (lookupKey input k) with is | r
        · simp only []
          exact List.mem_append_right _ (ih h1)
        · rcases r with _ | v
          · exact ih h1
          · exact ih h1

/-- A collected issue forces the object parse to fail with all collected
issues. -/
theorem parseObj_error_of_issue (fields : List (String × ZodType))
    (input : JsObj) (issue : ZodIssue)
    (h : issue ∈ (parseFields fields input).1) :
    ∃ issues, parseObj fields input = Except.error issues ∧ issue ∈ issues := by
  unfold parseObj
  rcases hp : parseFields fields input with ⟨is, out⟩
  rw [hp] at h
  cases is with
  | nil => cases h
  | cons i1 irest => exact ⟨i1 :: irest, rfl, h⟩

/-- C1: for every resolver state and target path key, `get` returns the
schema-validated result of folding the merge function over, in order, the
default fragment, the registered override fragment of each ancestor of the
path key (root-most first, unregistered ancestors skipped without error),
and then the outputs of the runtime functions in registration order, each
invoked with the target path key and the accumulator reflecting all prior
merges and prior runtime results; later values win by the merge fold. -/
theorem get_eq_resolveSpec (c : CdkConfig) (envId : String) :
    c.get envId = resolveSpec c envId := by
  simp only [CdkConfig.get, resolveSpec]
  rw [getEnvironmentHierarchy_eq, foldl_skip_eq_filterMap]

/-- C3: the path-hierarchy expansion returns the ordered `/`-boundary
prefixes of the key from least to most specific, ending with the full key
itself, and a key with no separator expands to the singleton of itself. -/
theorem hierarchy_is_prefix_chain (s : String) :
    getEnvironmentHierarchy s = prefixJoins (splitPath s)
    ∧ (getEnvironmentHierarchy s).getLast? = some s
    ∧ (s.data.contains '/' = false → getEnvironmentHierarchy s = [s]) := by
  refine ⟨getEnvironmentHierarchy_eq s, ?_, ?_⟩
  · rw [getEnvironmentHierarchy_eq, prefixJoins_getLast _ (splitPath_ne_nil s),
      joinPath_splitPath]
  · intro h
    unfold getEnvironmentHierarchy
    rw [if_neg (by simpa using h)]

/-- Witness for C3 at concrete keys: the claim's example expansion of
`a/b/c` and the singleton expansion of a separator-free key. -/
theorem hierarchy_is_prefix_chain_witness :
    getEnvironmentHierarchy "dev" = ["dev"]
    ∧ (getEnvironmentHierarchy "a/b/c").getLast? = some "a/b/c" :=
  ⟨(hierarchy_is_prefix_chain "dev").2.2 (by decide),
    (hierarchy_is_prefix_chain "a/b/c").2.1⟩

/-- C9: constructing a resolver around a schema that is not a zod object
fails synchronously with the message `Schema must be a Zod object`, while
any object-shaped schema constructs successfully. -/
theorem create_requires_object_schema (t : ZodType)
    (fields : List (String × ZodType)) (mergeFn : JsObj → JsObj → JsObj) :
    CdkConfig.create (ZodSchema.other t) mergeFn
      = Except.error "Schema must be a Zod object"
    ∧ CdkConfig.create (ZodSchema.object fields) mergeFn
      = Except.ok (mkConfig fields mergeFn) :=
  ⟨rfl, rfl⟩

/-- C7: resolution does not mutate the resolver.  In the state-threaded
reading of the method, the outgoing default fragment, override mapping and
runtime-function list are the incoming ones, a second call on the outgoing
state returns the same result as the first, and the result agrees with the
pure `get` (runtime functions are Lean functions and hence pure by
construction, matching the claim's purity hypothesis). -/
theorem getS_preserves_state (c : CdkConfig) (envId : String) :
    (c.getS envId).2.defaultValues = c.defaultValues
    ∧ (c.getS envId).2.overrides = c.overrides
    ∧ (c.getS envId).2.runtimeConfigs = c.runtimeConfigs
    ∧ ((c.getS envId).2.getS envId).1 = (c.getS envId).1
    ∧ (c.getS envId).1 = c.get envId :=
  ⟨rfl, rfl, rfl, rfl, rfl⟩

/-- C2: with a schema requiring `name` (string) and `replicas` (number,
default 1), default fragment `{}`, overrides `dev ↦ {name: "svc"}` and
`dev/staging ↦ {replicas: 3}`, resolution of `dev/staging` gives
`{name: "svc", replicas: 3}` and resolution of `dev/production` (override
only at `dev`) gives `{name: "svc", replicas: 1}` by the schema default. -/
theorem concrete_two_level_resolution :
    ((((mkConfig [("name", ZodType.string),
          ("replicas", ZodType.withDefault ZodType.number (JsValue.num 1))]
          deepMerge).setDefault []).set
        "dev" [("name", JsValue.str "svc")]).set
        "dev/staging" [("replicas", JsValue.num 3)]).get "dev/staging"
      = Except.ok [("name", JsValue.str "svc"), ("replicas", JsValue.num 3)]
    ∧ ((((mkConfig [("name", ZodType.string),
          ("replicas", ZodType.withDefault ZodType.number (JsValue.num 1))]
          deepMerge).setDefault []).set
        "dev" [("name", JsValue.str "svc")]).set
        "dev/staging" [("replicas", JsValue.num 3)]).get "dev/production"
      = Except.ok [("name", JsValue.str "svc"), ("replicas", JsValue.num 1)] :=
  ⟨rfl, rfl⟩

/-- The value-level merge of the source satisfies the per-key case split
the spec words describe: recursive merge for two plain objects, wholesale
override replacement otherwise. -/
theorem mergeV_eq_mergeValueSpec (bv ov : JsValue) :
    mergeV bv ov = mergeValueSpec bv ov := by
  cases bv with
  | obj b2 =>
      cases ov with
      | obj o2 => rw [mergeV_obj_obj]; rfl
      | null => exact mergeV_replace (Or.inr rfl)
      | undef => exact mergeV_replace (Or.inr rfl)
      | bool x => exact mergeV_replace (Or.inr rfl)
      | num x => exact mergeV_replace (Or.inr rfl)
      | str x => exact mergeV_replace (Or.inr rfl)
      | arr x => exact mergeV_replace (Or.inr rfl)
  | null => exact mergeV_replace (Or.inl rfl)
  | undef => exact mergeV_replace (Or.inl rfl)
  | bool x => exact mergeV_replace (Or.inl rfl)
  | num x => exact mergeV_replace (Or.inl rfl)
  | str x => exact mergeV_replace (Or.inl rfl)
  | arr x => exact mergeV_replace (Or.inl rfl)

/-- C5: for a key present in both objects, `deepMerge` merges the two
values recursively exactly when both are plain (non-null, non-array)
objects, and otherwise the override value replaces the base value
wholesale; in particular an override array replaces a base array
atomically, so a `tags` field overridden with `["c"]` at a more specific
path over base `["a","b"]` resolves to `["c"]`. -/
theorem deepMerge_both_present (b o : JsObj) (k : String) (bv ov : JsValue)
    (hb : lookupKey b k = some bv) (ho : lookupKey o k = some ov) :
    lookupKey (deepMerge b o) k = some (mergeValueSpec bv ov)
    ∧ ((((mkConfig [("tags", ZodType.stringArray)] deepMerge).set
          "a" [("tags", JsValue.arr [JsValue.str "a", JsValue.str "b"])]).set
          "a/b" [("tags", JsValue.arr [JsValue.str "c"])]).get "a/b"
        = Except.ok [("tags", JsValue.arr [JsValue.str "c"])]) := by
  constructor
  · rw [lookupKey_deepMerge, hb, ho]
    show some (mergeV bv ov) = some (mergeValueSpec bv ov)
    rw [mergeV_eq_mergeValueSpec]
  · rfl

/-- Witness for C5: the claim's array example, a base array field
overridden by a shorter array is replaced, never concatenated. -/
theorem deepMerge_both_present_witness :
    lookupKey (deepMerge
        [("tags", JsValue.arr [JsValue.str "a", JsValue.str "b"])]
        [("tags", JsValue.arr [JsValue.str "c"])]) "tags"
      = some (JsValue.arr [JsValue.str "c"]) :=
  (deepMerge_both_present
    [("tags", JsValue.arr [JsValue.str "a", JsValue.str "b"])]
    [("tags", JsValue.arr [JsValue.str "c"])] "tags"
    (JsValue.arr [JsValue.str "a", JsValue.str "b"])
    (JsValue.arr [JsValue.str "c"]) rfl rfl).1

/-- Path lookup at the empty path returns the value itself. -/
theorem getPathV_nil (v : JsValue) : getPathV v [] = some v := by
  cases v <;> rfl

/-- A nullish value is never a plain object. -/
theorem isPlainObj_false_of_isNullish {v : JsValue} (h : isNullish v = true) :
    isPlainObj v = false := by
  cases v with
  | null => rfl
  | undef => rfl
  | bool b => simp [isNullish] at h
  | num n => simp [isNullish] at h
  | str s => simp [isNullish] at h
  | arr a => simp [isNullish] at h
  | obj o => simp [isNullish] at h

/-- C4: an override binding a key to a nullish value (explicit `null` or
`undefined`, as distinct from absent) makes `deepMerge` include that key
bound to that nullish value, erasing the base's value there, at any
nesting depth reachable through the override object. -/
theorem deepMerge_nullish_erasure (b o : JsObj) (path : List String)
    (v : JsValue) (hv : getPathV (JsValue.obj o) path = some v)
    (hnull : isNullish v = true) :
    getPathV (JsValue.obj (deepMerge b o)) path = some v := by
  induction path generalizing b o with
  | nil =>
      simp only [getPathV] at hv
      injection hv with hv
      subst hv
      simp [isNullish] at hnull
  | cons k rest ih =>
      simp only [getPathV] at hv ⊢
      rw [lookupKey_deepMerge]
      rcases ho : lookupKey o k with _ | w
      · rw [ho] at hv
        simp at hv
      · rw [ho] at hv
        rcases hb : lookupKey b k with _ | bv
        · exact hv
        · show getPathV (mergeV bv w) rest = some v
          cases rest with
          | nil =>
              simp only [getPathV] at hv
              injection hv with hv
              subst hv
              rw [mergeV_replace (Or.inr (isPlainObj_false_of_isNullish hnull))]
              exact getPathV_nil w
          | cons r1 r2 =>
              cases w with
              | obj w2 =>
                  by_cases hbv : isPlainObj bv = true
                  · obtain ⟨b2, rfl⟩ : ∃ b2, bv = JsValue.obj b2 := by
                      cases bv <;> simp [isPlainObj] at hbv ⊢
                    rw [mergeV_obj_obj]
                    exact ih b2 w2 hv
                  · rw [mergeV_replace (Or.inl (by simpa using hbv))]
                    exact hv
              | null => simp [getPathV] at hv
              | undef => simp [getPathV] at hv
              | bool x => simp [getPathV] at hv
              | num x => simp [getPathV] at hv
              | str x => simp [getPathV] at hv
              | arr x => simp [getPathV] at hv

/-- Witness for C4: an explicit `null` two levels deep in the override
erases the base's nested value and survives into the merge result. -/
theorem deepMerge_nullish_erasure_witness :
    getPathV (JsValue.obj (deepMerge
        [("x", JsValue.obj [("a", JsValue.num 1)])]
        [("x", JsValue.obj [("a", JsValue.null)])])) ["x", "a"]
      = some JsValue.null :=
  deepMerge_nullish_erasure
    [("x", JsValue.obj [("a", JsValue.num 1)])]
    [("x", JsValue.obj [("a", JsValue.null)])]
    ["x", "a"] JsValue.null rfl rfl

/-- C8: for a schema declaring a required string field with no schema
default, if the default fragment, the override fragments registered on the
ancestors of the target path key, and the runtime functions all fail to
supply that field, then `get` returns a schema-validation error (no
partial result) whose issues identify that field as missing
(path `[fname]`, message `Required`). -/
theorem get_missing_required_field (c : CdkConfig) (envId fname : String)
    (hmerge : c.mergeFn = deepMerge)
    (hschema : (fname, ZodType.string) ∈ c.schema)
    (hdefault : lookupKey c.defaultValues fname = none)
    (hover : ∀ seg ∈ getEnvironmentHierarchy envId, ∀ frag,
        lookupKey c.overrides seg = some frag → lookupKey frag fname = none)
    (hruntime : ∀ fn ∈ c.runtimeConfigs, ∀ e acc, lookupKey (fn e acc) fname = none) :
    ∃ issues, c.get envId = Except.error issues
      ∧ ZodIssue.mk [fname] requiredMessage ∈ issues := by
  have hseg : ∀ segs : List String,
      (∀ s ∈ segs, ∀ frag, lookupKey c.overrides s = some frag →
        lookupKey frag fname = none) →
      ∀ acc, lookupKey acc fname = none →
      lookupKey (segs.foldl (fun acc segment =>
        match lookupKey c.overrides segment with
        | some ov => c.mergeFn acc ov
        | none => acc) acc) fname = none := by
    intro segs
    induction segs with
    | nil => intro _ acc hacc; exact hacc
    | cons s rest ih =>
        intro hs acc hacc
        simp only [List.foldl_cons]
        apply ih (fun s2 hs2 => hs s2 (List.mem_cons_of_mem _ hs2))
        rcases hov : lookupKey c.overrides s with _ | frag
        · exact hacc
        · rw [hmerge]
          exact lookupKey_deepMerge_none hacc (hs s (by simp) frag hov)
  have hrt : ∀ fns : List (String → JsObj → JsObj),
      (∀ fn ∈ fns, ∀ e acc, lookupKey (fn e acc) fname = none) →
      ∀ acc, lookupKey acc fname = none →
      lookupKey (fns.foldl (fun acc fn => c.mergeFn acc (fn envId acc)) acc)
        fname = none := by
    intro fns
    induction fns with
    | nil => intro _ acc hacc; exact hacc
    | cons fn rest ih =>
        intro hf acc hacc
        simp only [List.foldl_cons]
        apply ih (fun f2 hf2 => hf f2 (List.mem_cons_of_mem _ hf2))
        rw [hmerge]
        exact lookupKey_deepMerge_none hacc (hf fn (by simp) envId acc)
  have hfinal := hrt c.runtimeConfigs hruntime _
    (hseg (getEnvironmentHierarchy envId) hover c.defaultValues hdefault)
  obtain ⟨issues, herr, hmem⟩ := parseObj_error_of_issue c.schema _ _
    (parseFields_missing_required c.schema _ fname hschema hfinal)
  exact ⟨issues, herr, hmem⟩

/-- Witness for C8: a resolver whose schema requires `name`, with nothing
supplying it, fails resolution of `a/b` with the `Required` issue for
`name`. -/
theorem get_missing_required_field_witness :
    ∃ issues, (mkConfig [("name", ZodType.string)] deepMerge).get "a/b"
        = Except.error issues
      ∧ ZodIssue.mk ["name"] requiredMessage ∈ issues :=
  get_missing_required_field (mkConfig [("name", ZodType.string)] deepMerge)
    "a/b" "name" rfl (List.mem_singleton.mpr rfl) rfl
    (fun _seg _ _frag h => Option.noConfusion h)
    (fun fn h => absurd h (List.not_mem_nil fn))

/-- Counterexample to C6 as stated: on a resolver that already holds a
fragment for the key, `set(k, A)` then `set(k, B)` leaves a different
fragment for `k` than the single call `set(k, deepMerge(A, B))`, because
`deepMerge` is not associative around a scalar overwriting a nested
object.  Here the existing fragment is `{x: {a: 1}}`, `A = {x: 2}`,
`B = {x: {b: 3}}`: the two calls leave `{x: {b: 3}}`, the single call
leaves `{x: {a: 1, b: 3}}`. -/
theorem set_set_vs_merged_set_counterexample :
    lookupKey ((((mkConfig [] deepMerge).set "k"
        [("x", JsValue.obj [("a", JsValue.num 1)])]).set "k"
        [("x", JsValue.num 2)]).set "k"
        [("x", JsValue.obj [("b", JsValue.num 3)])]).overrides "k"
    ≠ lookupKey (((mkConfig [] deepMerge).set "k"
        [("x", JsValue.obj [("a", JsValue.num 1)])]).set "k"
        (deepMerge [("x", JsValue.num 2)]
          [("x", JsValue.obj [("b", JsValue.num 3)])])).overrides "k" := by
  intro h
  have h2 : (some [("x", JsValue.obj [("b", JsValue.num 3)])] : Option JsObj)
      = some [("x", JsValue.obj [("a", JsValue.num 1), ("b", JsValue.num 3)])] := h
  simp at h2

/-- C6 amended: on a key with no previously registered fragment,
`set(k, A)` then `set(k, B)` and the single `set(k, deepMerge(A, B))`
leave the same fragment for `k` (namely `deepMerge(A, B)`), and a first
`set` registers the supplied fragment as given; on a key holding an
existing fragment `E`, `set(k, A)` never replaces wholesale but leaves
`deepMerge(E, A)` — on such a key the two call shapes can differ, since
`deepMerge` is not associative (see the counterexample). -/
theorem set_cumulative_merge (c : CdkConfig) (k : String) (A B : JsObj) :
    (lookupKey c.overrides k = none →
      lookupKey ((c.set k A).overrides) k = some A
      ∧ lookupKey (((c.set k A).set k B).overrides) k = some (deepMerge A B)
      ∧ lookupKey ((c.set k (deepMerge A B)).overrides) k = some (deepMerge A B))
    ∧ (∀ E, lookupKey c.overrides k = some E →
      lookupKey ((c.set k A).overrides) k = some (deepMerge E A)) := by
  constructor
  · intro hnone
    have h1 : lookupKey ((c.set k A).overrides) k = some A := by
      rw [lookupKey_set_self, hnone]
    refine ⟨h1, ?_, ?_⟩
    · rw [lookupKey_set_self, h1]
    · rw [lookupKey_set_self, hnone]
  · intro E hE
    rw [lookupKey_set_self, hE]

/-- Witness for C6 amended: two cumulative `set` calls on a fresh key
leave the deep merge of the two fragments. -/
theorem set_cumulative_merge_witness :
    lookupKey ((((mkConfig [] deepMerge).set "k" [("a", JsValue.num 1)]).set "k"
        [("b", JsValue.num 2)]).overrides) "k"
      = some (deepMerge [("a", JsValue.num 1)] [("b", JsValue.num 2)]) :=
  ((set_cumulative_merge (mkConfig [] deepMerge) "k"
    [("a", JsValue.num 1)] [("b", JsValue.num 2)]).1 rfl).2.1

/-- Counterexample to C10 as stated: `setDefault({})` does not always
contribute nothing to subsequent resolution — it replaces the default
fragment wholesale, so on a resolver whose default already supplies a
required field, calling `setDefault({})` changes the result of `get` from
success to a validation failure. -/
theorem setDefault_empty_changes_resolution :
    ((mkConfig [("name", ZodType.string)] deepMerge).setDefault
        [("name", JsValue.str "svc")]).get "a"
      = Except.ok [("name", JsValue.str "svc")]
    ∧ (((mkConfig [("name", ZodType.string)] deepMerge).setDefault
        [("name", JsValue.str "svc")]).setDefault []).get "a"
      ≠ ((mkConfig [("name", ZodType.string)] deepMerge).setDefault
        [("name", JsValue.str "svc")]).get "a" := by
  refine ⟨rfl, ?_⟩
  intro h
  have h2 : (Except.error [ZodIssue.mk ["name"] requiredMessage] :
      Except (List ZodIssue) JsObj) = Except.ok [("name", JsValue.str "svc")] := h
  simp at h2

/-- C10 amended: the empty object is a two-sided identity of `deepMerge`;
consequently `set(k, {})` contributes nothing to any subsequent resolution
(under the default merge function), and `setDefault({})` contributes
nothing when the default fragment is already empty — in general
`setDefault` replaces the default wholesale, so `setDefault({})` erases a
previously-set nonempty default (see the counterexample). -/
theorem empty_object_merge_identity (x : JsObj) (c : CdkConfig) (k envId : String) :
    deepMerge x [] = x
    ∧ deepMerge [] x = x
    ∧ (c.mergeFn = deepMerge → (c.set k []).get envId = c.get envId)
    ∧ (c.defaultValues = [] → (c.setDefault []).get envId = c.get envId) := by
  obtain ⟨sch, mf, dv, ov, rt⟩ := c
  refine ⟨deepMerge_nil_right x, deepMerge_nil_left x, ?_, ?_⟩
  · intro hmerge
    simp only [CdkConfig.mk.injEq] at hmerge
    subst hmerge
    rcases ho : lookupKey ov k with _ | E
    · have hstep : ∀ (acc : JsObj) (s : String),
          (match lookupKey (ov ++ [(k, [])]) s with
           | some o => deepMerge acc o
           | none => acc)
          = (match lookupKey ov s with
             | some o => deepMerge acc o
             | none => acc) := by
        intro acc s
        rw [lookupKey_append]
        rcases hs : lookupKey ov s with _ | frag
        · simp only [lookupKey]
          by_cases hk : (k == s) = true
          · rw [if_pos hk]
            show deepMerge acc [] = acc
            exact deepMerge_nil_right acc
          · rw [if_neg hk]
        · rfl
      have hfold : ∀ (segs : List String) (acc : JsObj),
          segs.foldl (fun acc s =>
            match lookupKey (ov ++ [(k, [])]) s with
            | some o => deepMerge acc o
            | none => acc) acc
          = segs.foldl (fun acc s =>
            match lookupKey ov s with
            | some o => deepMerge acc o
            | none => acc) acc := by
        intro segs
        induction segs with
        | nil => intro acc; rfl
        | cons s rest ih =>
            intro acc
            simp only [List.foldl_cons, hstep, ih]
      simp only [CdkConfig.set, ho]
      simp only [CdkConfig.get, hfold]
    · simp only [CdkConfig.set, ho, deepMerge_nil_right, updateKey_self ov k E ho]
  · intro hd
    simp only [CdkConfig.setDefault] at *
    subst hd
    rfl

/-- Witness for C10 amended: identity of the empty merge at a concrete
object, a concrete `set` of the empty fragment not affecting resolution,
and `setDefault({})` on an already-empty default not affecting
resolution. -/
theorem empty_object_merge_identity_witness :
    deepMerge [("a", JsValue.num 1)] [] = [("a", JsValue.num 1)]
    ∧ (((mkConfig [("name", ZodType.string)] deepMerge).setDefault
        [("name", JsValue.str "x")]).set "dev" []).get "dev"
      = ((mkConfig [("name", ZodType.string)] deepMerge).setDefault
        [("name", JsValue.str "x")]).get "dev"
    ∧ ((mkConfig [("name", ZodType.string)] deepMerge).setDefault []).get "dev"
      = (mkConfig [("name", ZodType.string)] deepMerge).get "dev" :=
  ⟨(empty_object_merge_identity [("a", JsValue.num 1)]
      (mkConfig [] deepMerge) "k" "e").1,
    (empty_object_merge_identity [] ((mkConfig [("name", ZodType.string)]
      deepMerge).setDefault [("name", JsValue.str "x")]) "dev" "dev").2.2.1 rfl,
    (empty_object_merge_identity [] (mkConfig [("name", ZodType.string)]
      deepMerge) "dev" "dev").2.2.2 rfl⟩
